import Mathlib

/-!
Verification development for the recent-messages2 chat-message recorder.

The Rust source is shallowly embedded: strings are modelled as `List Char`,
timestamps as integer nanoseconds since the Unix epoch, machine integers as
`Nat`/`Int` with explicit reductions modulo `2^32` where the source relies on
wrapping arithmetic, and fallible or panicking code returns `Option`/`Except`.
SQL statements are modelled as pure functions over lists of rows.
-/

/-- Strings from the Rust source, modelled as lists of characters. -/
abbrev Str := List Char

/- Instants (`chrono::DateTime<Utc>`) are modelled as `Int` nanoseconds since
the Unix epoch.  `chrono` stores seconds plus a nonnegative subsecond
nanosecond field, which is equivalent to this linear encoding with euclidean
division (Lean's `/` and `%` on `Int`). -/

/-- Model of `chrono`'s `trunc_subsecs(3)` as used in `irc_listener.rs`:
truncate an instant to millisecond precision by removing the sub-millisecond
nanoseconds (the nanosecond-of-second field is nonnegative, so this is
`t - t % 10^6` with euclidean remainder). -/
def truncMillis (t : Int) : Int := t - t % 1000000

/-- Model of `chrono`'s `DateTime::timestamp_millis`: milliseconds since the
Unix epoch, i.e. floor division of the nanosecond instant by `10^6`. -/
def timestampMillis (t : Int) : Int := t / 1000000

/-- Decimal rendering of a natural number, as Rust's `to_string`. -/
def natToStr (n : Nat) : Str := Nat.toDigits 10 n

/-- Decimal rendering of an integer, as Rust's `i64::to_string`. -/
def intToStr (i : Int) : Str :=
  if i < 0 then '-' :: natToStr i.natAbs else natToStr i.toNat

/-- Parse a decimal natural number (used for the `ban-duration` IRC tag). -/
def parseNatAux (acc : Nat) : Str → Option Nat
  | [] => some acc
  | c :: rest =>
      if '0' ≤ c ∧ c ≤ '9' then parseNatAux (acc * 10 + (c.toNat - '0'.toNat)) rest
      else none

/-- Parse a nonempty decimal string into a natural number. -/
def parseNat (s : Str) : Option Nat :=
  match s with
  | [] => none
  | _ => parseNatAux 0 s

/-! ## DB access layer: partition routing (`src/db.rs`)

`DataStorage::channel_to_partition_id` hashes the channel login with
`murmur3_32` (seed 0) and reduces it modulo `shard_dbs.len() + 1`. -/

/-- Rotate a 32-bit value left by `r` bits. -/
def rotl32 (x r : Nat) : Nat := ((x <<< r) ||| (x >>> (32 - r))) % 2 ^ 32

/-- The murmur3 per-block mixing of a 32-bit chunk. -/
def murmurMix (k : Nat) : Nat :=
  (rotl32 ((k * 0xcc9e2d51) % 2 ^ 32) 15 * 0x1b873593) % 2 ^ 32

/-- Body of `murmur3_32`: consume little-endian 4-byte chunks, then the
1-3 byte tail. -/
def murmurBody (h : Nat) : List Nat → Nat
  | b0 :: b1 :: b2 :: b3 :: rest =>
      let k := b0 + b1 * 256 + b2 * 65536 + b3 * 16777216
      let h₁ := h ^^^ murmurMix k
      murmurBody ((rotl32 h₁ 13 * 5 + 0xe6546b64) % 2 ^ 32) rest
  | [] => h
  | [b0] => h ^^^ murmurMix b0
  | [b0, b1] => h ^^^ murmurMix (b0 + b1 * 256)
  | [b0, b1, b2] => h ^^^ murmurMix (b0 + b1 * 256 + b2 * 65536)

/-- Finalization mix of murmur3. -/
def murmurFmix (h : Nat) : Nat :=
  let h₁ := h ^^^ (h >>> 16)
  let h₂ := (h₁ * 0x85ebca6b) % 2 ^ 32
  let h₃ := h₂ ^^^ (h₂ >>> 13)
  let h₄ := (h₃ * 0xc2b2ae35) % 2 ^ 32
  h₄ ^^^ (h₄ >>> 16)

/-- The `murmur3::murmur3_32` hash over a byte sequence with the given seed,
as called in `DataStorage::channel_to_partition_id`. -/
def murmur3_32 (bytes : List Nat) (seed : Nat) : Nat :=
  murmurFmix (murmurBody seed bytes ^^^ bytes.length % 2 ^ 32)

/-- UTF-8 bytes of a channel login (channel logins are ASCII `[a-z0-9_]`,
whose UTF-8 encoding is one byte per character). -/
def strBytes (s : Str) : List Nat := s.map Char.toNat

/-- `DataStorage::channel_to_partition_id` from `src/db.rs`: the murmur3 hash
of the channel login (seed 0) reduced modulo `shard_dbs.len() + 1`.
`nShards` is the number of shard databases; partition 0 is the main
database. -/
def channel_to_partition_id (channelLogin : Str) (nShards : Nat) : Nat :=
  murmur3_32 (strBytes channelLogin) 0 % (nShards + 1)

/-! ## DB access layer: stored messages and `get_messages` (`src/db.rs`) -/

/-- A row of the `message` table. -/
structure MessageRow where
  channelLogin : Str
  timeReceived : Int
  messageSource : Str
deriving DecidableEq, Repr

/-- A `StoredMessage` as returned by `DataStorage::get_messages`. -/
structure StoredMessage where
  timeReceived : Int
  messageSource : Str
deriving DecidableEq, Repr

/-- Descending order on rows by `time_received`, the `ORDER BY time_received
DESC` of the `get_messages` query. -/
def rowGE (a b : MessageRow) : Prop := b.timeReceived ≤ a.timeReceived

instance : DecidableRel rowGE := fun a b =>
  inferInstanceAs (Decidable (b.timeReceived ≤ a.timeReceived))

/-- `DataStorage::get_messages` from `src/db.rs`, as a pure function of the
rows stored in the channel's partition.  The SQL is
`SELECT time_received, message_source FROM message WHERE channel_login = $1
ORDER BY time_received DESC LIMIT $2`, the limit being
`min(limit, max_buffer_size)` (or `max_buffer_size` when absent), and the
resulting rows are reversed so the oldest message comes first.  Note the
query has no filter on `before`/`after`. -/
def get_messages (rows : List MessageRow) (channelLogin : Str)
    (limit : Option Nat) (maxBufferSize : Nat) : List StoredMessage :=
  let lim := match limit with
    | some l => min l maxBufferSize
    | none => maxBufferSize
  (((rows.filter (fun r => r.channelLogin = channelLogin)).insertionSort rowGE).take
      lim).reverse.map
    (fun r => { timeReceived := r.timeReceived, messageSource := r.messageSource })

/-- Modelled from the spec: the read window the specification prescribes for
`get_messages` (`WHERE channel_login = $1 AND time_received < $before AND
time_received > $after ORDER BY time_received DESC LIMIT $k`, reversed).  The
`before`/`after` bounds are exclusive and the limit is clamped to
`max_buffer_size`.  This definition exists only for comparison with
`get_messages` above, which lacks the `before`/`after` filtering. -/
def get_messages_spec (rows : List MessageRow) (channelLogin : Str)
    (limit : Option Nat) (before after : Option Int) (maxBufferSize : Nat) :
    List StoredMessage :=
  let lim := match limit with
    | some l => min l maxBufferSize
    | none => maxBufferSize
  let inWindow := fun (r : MessageRow) =>
    (match before with | some b => decide (r.timeReceived < b) | none => true) &&
    (match after with | some a => decide (a < r.timeReceived) | none => true)
  (((rows.filter (fun r => decide (r.channelLogin = channelLogin) && inWindow r)).insertionSort
        rowGE).take
      lim).reverse.map
    (fun r => { timeReceived := r.timeReceived, messageSource := r.messageSource })

/-! ## Message vacuum (`src/db.rs`, `DataStorage::run_message_vacuum`)

For one channel the vacuum issues a single DELETE removing each row whose
`time_received` is below the cutoff row (the row at `OFFSET max_buffer_size -
1 LIMIT 1` of the descending order) or below the age cutoff
`now() - messages_expire_after`.  When fewer than `max_buffer_size` rows
exist the subquery yields no row and the size comparison is SQL `NULL`,
i.e. never true. -/

/-- The size-trim cutoff: the `time_received` of the row at offset
`max_buffer_size - 1` of the rows sorted by `time_received DESC`, if any. -/
def vacuumCutoff (rows : List MessageRow) (maxBufferSize : Nat) : Option Int :=
  ((rows.insertionSort rowGE).map (fun r => r.timeReceived)).get? (maxBufferSize - 1)

/-- Whether a row is removed by the vacuum DELETE for its channel. -/
def vacuumDeletes (cutoff : Option Int) (ageCutoff : Int) (t : Int) : Prop :=
  (match cutoff with | some c => t < c | none => False) ∨ t < ageCutoff

instance (cutoff : Option Int) (ageCutoff t : Int) :
    Decidable (vacuumDeletes cutoff ageCutoff t) := by
  unfold vacuumDeletes
  cases cutoff <;> exact inferInstance

/-- One vacuum DELETE for a single channel: `rows` are the channel's stored
rows, `now` the clock at DELETE time, `messagesExpireAfter` the retention age
in nanoseconds.  Returns the surviving rows. -/
def run_message_vacuum_channel (rows : List MessageRow) (now : Int)
    (messagesExpireAfter : Int) (maxBufferSize : Nat) : List MessageRow :=
  let cutoff := vacuumCutoff rows maxBufferSize
  rows.filter
    (fun r => ¬ vacuumDeletes cutoff (now - messagesExpireAfter) r.timeReceived)

/-! ## IRC ingestion batch worker (`src/irc_listener.rs`)

`run_forwarder` declares `let max_chunk_size = 10000;` and the chunk worker
drains the internal queue non-blockingly: it pushes received items into the
chunk and stops when the queue is empty or the chunk has reached
`max_chunk_size` items; it then sleeps for `forwarder_run_every` exactly when
the chunk is smaller than `max_chunk_size`. -/

/-- The hard-coded `max_chunk_size` local of `IrcListener::run_forwarder`. -/
def max_chunk_size : Nat := 10000

/-- The default of the recognized config option `irc.forwarder_max_chunk_size`
(`src/config.rs`). -/
def forwarder_max_chunk_size_default : Nat := 256

/-- The inner drain loop of the chunk worker: repeatedly `try_recv` from the
queue, pushing into `chunk`, breaking when the queue is empty or after the
push that reaches `maxChunk` items.  Returns the drained chunk and the
remaining queue. -/
def drainLoop (queue chunk : List α) (maxChunk : Nat) : List α × List α :=
  match queue with
  | [] => (chunk, [])
  | m :: rest =>
      if maxChunk ≤ chunk.length + 1 then (chunk ++ [m], rest)
      else drainLoop rest (chunk ++ [m]) maxChunk

/-- One tick of the chunk worker: drain a chunk of at most `max_chunk_size`
items, sleep iff the chunk is not full, and hand the chunk to
`append_messages` iff it is nonempty.  Returns (chunk, remaining queue,
sleeps, appends). -/
def chunkWorkerTick (queue : List α) : List α × List α × Bool × Bool :=
  let (chunk, rest) := drainLoop queue [] max_chunk_size
  (chunk, rest, decide (chunk.length < max_chunk_size), !chunk.isEmpty)

/-! ## IRC wire format

Modelled from the spec: the IRC wire-protocol client (the external
`twitch_irc` crate, §6.2 of the specification) parses and serializes raw IRC
lines consisting of an optional `@key=value;...` tag section, an optional
`:prefix` section, a command, and parameters with the final parameter written
as a `:`-introduced trailing segment.  Tags are kept in order; the
serialization is the deterministic inverse of parsing. -/

/-- An IRC message prefix: either a host-only prefix or a full
`nick!user@host` prefix. -/
inductive IRCPfx where
  | hostOnly (host : Str)
  | full (nick user host : Str)
deriving DecidableEq, Repr

/-- A parsed IRC message: tags (in order, each with an optional value),
optional message prefix, command and parameters. -/
structure IRCMessage where
  tags : List (Str × Option Str)
  pfx : Option IRCPfx
  command : Str
  params : List Str
deriving DecidableEq, Repr

/-- Split a list at the first character satisfying `p`, dropping the
separator; `none` when no character satisfies `p`. -/
def splitFirst (p : Char → Bool) : Str → Option (Str × Str)
  | [] => none
  | c :: rest =>
      if p c then some ([], rest)
      else (splitFirst p rest).map (fun ab => (c :: ab.1, ab.2))

/-- Split at the first space, or return the whole list with an empty
remainder when it contains no space. -/
def splitSp (l : Str) : Str × Str :=
  match splitFirst (fun c => c = ' ') l with
  | some ab => ab
  | none => (l, [])

theorem splitFirst_length (p : Char → Bool) : ∀ (l a b : Str),
    splitFirst p l = some (a, b) → b.length < l.length := by
  intro l
  induction l with
  | nil => intro a b h; simp [splitFirst] at h
  | cons c rest ih =>
      intro a b h
      simp only [splitFirst] at h
      by_cases hc : p c
      · rw [if_pos hc] at h
        injection h with h2
        injection h2 with h3 h4
        subst h4
        simp
      · rw [if_neg hc] at h
        obtain ⟨⟨a₁, b₁⟩, hab, heq⟩ := Option.map_eq_some'.mp h
        injection heq with h3 h4
        have hlen := ih a₁ b₁ hab
        simp [← h4]
        omega

/-- Concatenate segments with a separator character between them. -/
def joinSep (sep : Char) : List Str → Str
  | [] => []
  | [s] => s
  | s :: rest => s ++ sep :: joinSep sep rest

/-- Split on every character satisfying `p` (fuel-driven so that the
recursion is structural; `splitAll` supplies enough fuel). -/
def splitAllGo (p : Char → Bool) : Nat → Str → List Str
  | fuel, l =>
      match splitFirst p l, fuel with
      | none, _ => [l]
      | some _, 0 => [l]
      | some (a, b), fuel + 1 => a :: splitAllGo p fuel b

/-- Split on every character satisfying `p`. -/
def splitAll (p : Char → Bool) (l : Str) : List Str :=
  splitAllGo p l.length l

/-- Serialize one IRC tag (`key` or `key=value`). -/
def serializeTag : Str × Option Str → Str
  | (k, none) => k
  | (k, some v) => k ++ '=' :: v

/-- Serialize an IRC prefix. -/
def serializePfx : IRCPfx → Str
  | .hostOnly host => host
  | .full nick user host => nick ++ '!' :: user ++ '@' :: host

/-- Serialize the parameter list: every parameter is preceded by a space and
the final parameter is written as a trailing segment introduced by `:`. -/
def serializeParams : List Str → Str
  | [] => []
  | [last] => ' ' :: ':' :: last
  | p :: rest => (' ' :: p) ++ serializeParams rest

/-- The serialized tag section (`@k=v;... ` or empty). -/
def serializeTagsPart (tags : List (Str × Option Str)) : Str :=
  if tags.isEmpty then []
  else '@' :: joinSep ';' (tags.map serializeTag) ++ [' ']

/-- The serialized prefix section (`:prefix ` or empty). -/
def serializePfxOpt : Option IRCPfx → Str
  | none => []
  | some p => ':' :: serializePfx p ++ [' ']

/-- `AsRawIRC::as_raw_irc`: serialize an `IRCMessage` back to its wire
form. -/
def asRawIRC (m : IRCMessage) : Str :=
  serializeTagsPart m.tags ++ serializePfxOpt m.pfx ++
    m.command ++ serializeParams m.params

/-- Parse one IRC tag: split at the first `=`; a tag without `=` has no
value. -/
def parseTag (t : Str) : Str × Option Str :=
  match splitFirst (fun c => c = '=') t with
  | none => (t, none)
  | some (k, v) => (k, some v)

/-- Parse an IRC prefix: a prefix containing `!` is a full `nick!user@host`
prefix, otherwise it is host-only. -/
def parsePfx (s : Str) : IRCPfx :=
  match splitFirst (fun c => c = '!') s with
  | none => .hostOnly s
  | some (nick, rest) =>
      match splitFirst (fun c => c = '@') rest with
      | none => .hostOnly s
      | some (user, host) => .full nick user host

/-- Parse the parameter section with explicit fuel (structural recursion;
`parseParams` supplies enough fuel). -/
def parseParamsGo : Nat → Str → List Str
  | fuel, l =>
      if l = [] then []
      else if l.head? = some ':' then [l.tail]
      else
        match splitFirst (fun c => c = ' ') l, fuel with
        | none, _ => [l]
        | some _, 0 => [l]
        | some (a, b), fuel + 1 => a :: parseParamsGo fuel b

/-- Parse the parameter section (after the command and its following space):
a segment introduced by `:` is the final trailing parameter. -/
def parseParams (l : Str) : List Str :=
  parseParamsGo l.length l

/-- The prefix/command/parameter stage of `IRCMessage::parse`, applied to
the line after the tag section has been consumed. -/
def parseRest (l1 : Str) : Option IRCPfx × Str × List Str :=
  if l1.head? = some ':' then
    let sr := splitSp l1.tail
    let cr := splitSp sr.2
    (some (parsePfx sr.1), cr.1, parseParams cr.2)
  else
    let cr := splitSp l1
    (none, cr.1, parseParams cr.2)

/-- `IRCMessage::parse`: parse a raw IRC line.  Fails (the unwrap in
`MessageContainer::append_stored_msg` panics) when the command is empty. -/
def parseIRC (l : Str) : Option IRCMessage :=
  let tl := if l.head? = some '@' then
      let sr := splitSp l.tail
      ((splitAll (fun c => c = ';') sr.1).map parseTag, sr.2)
    else ([], l)
  let r := parseRest tl.2
  if r.2.1 = [] then none
  else some ⟨tl.1, r.1, r.2.1, r.2.2⟩

/-! ## Parsed server messages

Modelled from the spec: the IRC client (§6.2) exposes a stream of parsed
messages with discriminated variants; the ones carrying a channel context are
`ClearChat, ClearMsg, Join, Notice (optional), Part, Privmsg, RoomState,
UserNotice, UserState`.  Each variant keeps its source `IRCMessage`; only the
fields the core inspects (channel login, sender id, message id, clear-chat
action) are modelled. -/

/-- A `CLEARCHAT` action: full chat clear, timeout, or permanent ban
(`timeoutLength` in seconds). -/
inductive ClearChatAction where
  | chatCleared
  | userTimedOut (userLogin userId : Str) (timeoutLength : Nat)
  | userBanned (userLogin userId : Str)
deriving DecidableEq, Repr

/-- The discriminated variants of a parsed server message, with the fields
the core inspects. -/
inductive MsgDetails where
  | privmsg (channelLogin senderId messageId : Str)
  | userNotice (channelLogin senderId messageId : Str)
  | clearChat (channelLogin : Str) (action : ClearChatAction)
  | clearMsg (channelLogin messageId : Str)
  | notice (channelLogin : Option Str) (messageId : Option Str)
  | roomState (channelLogin : Str)
  | join (channelLogin : Str)
  | part (channelLogin : Str)
  | userState (channelLogin : Str)
  | generic
deriving DecidableEq, Repr

/-- A parsed server message: the retained source `IRCMessage` plus the
structured variant. -/
structure ServerMessage where
  source : IRCMessage
  details : MsgDetails
deriving DecidableEq, Repr

/-- Look up a tag by key (first match) in a tag list. -/
def lookupTag (tags : List (Str × Option Str)) (k : Str) : Option (Option Str) :=
  match tags with
  | [] => none
  | (k₁, v) :: rest => if k₁ = k then some v else lookupTag rest k

/-- Look up a tag that must be present with a value. -/
def requireTag (tags : List (Str × Option Str)) (k : Str) : Option Str :=
  match lookupTag tags k with
  | some (some v) => some v
  | _ => none

/-- A channel parameter `#login` stripped of its leading `#`. -/
def channelFromParam : Str → Option Str
  | '#' :: rest => some rest
  | _ => none

def cmdPRIVMSG : Str := "PRIVMSG".toList
def cmdCLEARCHAT : Str := "CLEARCHAT".toList
def cmdCLEARMSG : Str := "CLEARMSG".toList
def cmdUSERNOTICE : Str := "USERNOTICE".toList
def cmdNOTICE : Str := "NOTICE".toList
def cmdROOMSTATE : Str := "ROOMSTATE".toList
def cmdJOIN : Str := "JOIN".toList
def cmdPART : Str := "PART".toList
def cmdUSERSTATE : Str := "USERSTATE".toList
def tagUserId : Str := "user-id".toList
def tagId : Str := "id".toList
def tagTargetUserId : Str := "target-user-id".toList
def tagTargetMsgId : Str := "target-msg-id".toList
def tagBanDuration : Str := "ban-duration".toList
def tagMsgId : Str := "msg-id".toList
def tagHistorical : Str := "historical".toList
def tagRmReceivedTs : Str := "rm-received-ts".toList
def tagRmDeleted : Str := "rm-deleted".toList
def strOne : Str := "1".toList
def strTmiHost : Str := "tmi.twitch.tv".toList

/-- Modelled from the spec: `ServerMessage::try_from(IRCMessage)` of the IRC
client (§6.2) — dispatch on the command, extracting the fields the core
inspects; messages missing a required field fail to convert (the unwrap in
`append_stored_msg` panics).  Unrecognized commands become the generic
variant. -/
def tryFromIRC (m : IRCMessage) : Option ServerMessage :=
  if m.command = cmdPRIVMSG then
    match m.params with
    | [chanP, _text] => do
        let chan ← channelFromParam chanP
        let uid ← requireTag m.tags tagUserId
        let mid ← requireTag m.tags tagId
        some ⟨m, .privmsg chan uid mid⟩
    | _ => none
  else if m.command = cmdCLEARCHAT then
    match m.params with
    | [chanP] => do
        let chan ← channelFromParam chanP
        some ⟨m, .clearChat chan .chatCleared⟩
    | [chanP, userLogin] => do
        let chan ← channelFromParam chanP
        let uid ← requireTag m.tags tagTargetUserId
        match lookupTag m.tags tagBanDuration with
        | some (some d) => do
            let secs ← parseNat d
            some ⟨m, .clearChat chan (.userTimedOut userLogin uid secs)⟩
        | _ => some ⟨m, .clearChat chan (.userBanned userLogin uid)⟩
    | _ => none
  else if m.command = cmdCLEARMSG then
    match m.params with
    | [chanP, _text] => do
        let chan ← channelFromParam chanP
        let mid ← requireTag m.tags tagTargetMsgId
        some ⟨m, .clearMsg chan mid⟩
    | _ => none
  else if m.command = cmdUSERNOTICE then
    match m.params with
    | chanP :: _ => do
        let chan ← channelFromParam chanP
        let uid ← requireTag m.tags tagUserId
        let mid ← requireTag m.tags tagId
        some ⟨m, .userNotice chan uid mid⟩
    | _ => none
  else if m.command = cmdNOTICE then
    match m.params with
    | [target, _text] =>
        some ⟨m, .notice (channelFromParam target) (requireTag m.tags tagMsgId)⟩
    | _ => none
  else if m.command = cmdROOMSTATE then
    match m.params with
    | chanP :: _ => do
        let chan ← channelFromParam chanP
        some ⟨m, .roomState chan⟩
    | _ => none
  else if m.command = cmdJOIN then
    match m.params with
    | chanP :: _ => do
        let chan ← channelFromParam chanP
        some ⟨m, .join chan⟩
    | _ => none
  else if m.command = cmdPART then
    match m.params with
    | chanP :: _ => do
        let chan ← channelFromParam chanP
        some ⟨m, .part chan⟩
    | _ => none
  else if m.command = cmdUSERSTATE then
    match m.params with
    | chanP :: _ => do
        let chan ← channelFromParam chanP
        some ⟨m, .userState chan⟩
    | _ => none
  else some ⟨m, .generic⟩

/-! ## Ingestion filter (`src/irc_listener.rs`) -/

/-- `ServerMessageExt::channel_login` from `src/irc_listener.rs`: the channel
context of a message, when it has one. -/
def channelLoginOf (m : ServerMessage) : Option Str :=
  match m.details with
  | .clearChat c _ => some c
  | .clearMsg c _ => some c
  | .join c => some c
  | .notice c _ => c
  | .part c => some c
  | .privmsg c _ _ => some c
  | .roomState c => some c
  | .userNotice c _ _ => some c
  | .userState c => some c
  | .generic => none

/-- The ingestion filter of `IrcListener::run_forwarder`: a message with a
channel context becomes the tuple `(channel_login, now truncated to
milliseconds, raw source line)` offered to the internal queue; other messages
are dropped. -/
def forward_filter (message : ServerMessage) (now : Int) :
    Option (Str × Int × Str) :=
  (channelLoginOf message).map
    (fun cl => (cl, truncMillis now, asRawIRC message.source))

/-! ## Replay transformation (`src/message_export.rs`) -/

/-- `GetRecentMessagesQueryOptions` from `src/web/get_recent_messages.rs`. -/
structure GetRecentMessagesQueryOptions where
  hide_moderation_messages : Bool
  hide_moderated_messages : Bool
  clearchat_to_notice : Bool
  limit : Option Nat
  before : Option Int
  after : Option Int
deriving DecidableEq, Repr

/-- The serde default of the query options: all flags off, no window. -/
def defaultQueryOptions : GetRecentMessagesQueryOptions :=
  ⟨false, false, false, none, none, none⟩

/-- A `ContainerFrame` from `src/message_export.rs`. -/
structure ContainerFrame where
  original_message : ServerMessage
  time_received : Int
  deleted_by_moderation : Bool
deriving DecidableEq, Repr

/-- Tag-map insertion (`tags.0.insert` on the tag map): replace the value of
an existing key, otherwise add the pair. -/
def insertTag (tags : List (Str × Option Str)) (k : Str) (v : Option Str) :
    List (Str × Option Str) :=
  if tags.any (fun kv => decide (kv.1 = k)) then
    tags.map (fun kv => if kv.1 = k then (k, v) else kv)
  else tags ++ [(k, v)]

/-- Modelled from the spec: `humantime::format_duration` produces a
human-readable duration such as `5m 2s`; the exact text is not load-bearing
for any claim, only that it is a deterministic function of the seconds. -/
def formatDuration (secs : Nat) : Str :=
  if secs = 0 then "0s".toList
  else
    (if secs / 60 ≠ 0 then natToStr (secs / 60) ++ "m".toList ++
        (if secs % 60 ≠ 0 then " ".toList else []) else []) ++
    (if secs % 60 ≠ 0 then natToStr (secs % 60) ++ "s".toList else [])

/-- The `IGNORED_NOTICE_IDS` set from `src/message_export.rs`. -/
def IGNORED_NOTICE_IDS : List Str :=
  ["no_permission".toList, "host_on".toList, "host_off".toList,
   "host_target_went_offline".toList, "msg_channel_suspended".toList]

/-- Membership test in `IGNORED_NOTICE_IDS`. -/
def isIgnoredNoticeId (mid : Str) : Bool :=
  IGNORED_NOTICE_IDS.any (fun s => decide (s = mid))

/-- Whether a message variant is a `CLEARCHAT` or `CLEARMSG` (the
`hide_moderation_messages` filter). -/
def isModerationMessage (d : MsgDetails) : Bool :=
  match d with
  | .clearChat _ _ => true
  | .clearMsg _ _ => true
  | _ => false

/-- The message text and `msg-id` tag of the synthetic NOTICE built by the
`clearchat_to_notice` option. -/
def clearchatNoticeParts (action : ClearChatAction) : Str × Str :=
  match action with
  | .chatCleared =>
      ("Chat has been cleared by a moderator.".toList, "rm-clearchat".toList)
  | .userTimedOut userLogin _ len =>
      (userLogin ++ " has been timed out for ".toList ++ formatDuration len ++
        ".".toList, "rm-timeout".toList)
  | .userBanned userLogin _ =>
      (userLogin ++ " has been permanently banned.".toList,
        "rm-permaban".toList)

/-- `ContainerFrame::export` up to (but not including) the final
`as_raw_irc` serialization: `None` elides the frame, otherwise the
`IRCMessage` to be serialized, with the `historical=1`, `rm-received-ts` and
(for moderated frames) `rm-deleted=1` tags inserted. -/
def ContainerFrame.exportMessage (self : ContainerFrame)
    (options : GetRecentMessagesQueryOptions) : Option IRCMessage :=
  if options.hide_moderated_messages && self.deleted_by_moderation then none
  else if options.hide_moderation_messages &&
      isModerationMessage self.original_message.details then none
  else
    let messageToExport :=
      if options.clearchat_to_notice then
        match self.original_message.details with
        | .clearChat chan action =>
            let mt := clearchatNoticeParts action
            ⟨[(tagMsgId, some mt.2)], some (.hostOnly strTmiHost), cmdNOTICE,
              ['#' :: chan, mt.1]⟩
        | _ => self.original_message.source
      else self.original_message.source
    let m₁ : IRCMessage :=
      { messageToExport with
          tags := insertTag messageToExport.tags tagHistorical (some strOne) }
    let m₂ : IRCMessage :=
      { m₁ with
          tags := insertTag m₁.tags tagRmReceivedTs
            (some (intToStr (timestampMillis self.time_received))) }
    some (if self.deleted_by_moderation then
      { m₂ with tags := insertTag m₂.tags tagRmDeleted (some strOne) }
    else m₂)

/-- `ContainerFrame::export`: the serialized wire line of the exported
frame, or `None` when the frame is elided. -/
def ContainerFrame.export (self : ContainerFrame)
    (options : GetRecentMessagesQueryOptions) : Option Str :=
  (self.exportMessage options).map asRawIRC

/-- Whether `append_stored_msg` keeps a message (`PRIVMSG`, `CLEARCHAT`,
`CLEARMSG`, `USERNOTICE`, `NOTICE`, `ROOMSTATE` are exported). -/
def isExportedKind (d : MsgDetails) : Bool :=
  match d with
  | .privmsg _ _ _ => true
  | .clearChat _ _ => true
  | .clearMsg _ _ => true
  | .userNotice _ _ _ => true
  | .notice _ _ => true
  | .roomState _ => true
  | _ => false

/-- Mark a frame deleted. -/
def markDeleted (f : ContainerFrame) : ContainerFrame :=
  { f with deleted_by_moderation := true }

/-- Whether a frame is a `PRIVMSG`/`USERNOTICE` from the given sender id. -/
def senderMatches (userId : Str) (f : ContainerFrame) : Bool :=
  match f.original_message.details with
  | .privmsg _ sid _ => decide (sid = userId)
  | .userNotice _ sid _ => decide (sid = userId)
  | _ => false

/-- Whether a frame is a `PRIVMSG`/`USERNOTICE` with the given message id. -/
def messageIdMatches (messageId : Str) (f : ContainerFrame) : Bool :=
  match f.original_message.details with
  | .privmsg _ _ mid => decide (mid = messageId)
  | .userNotice _ _ mid => decide (mid = messageId)
  | _ => false

/-- `MessageContainer::append_stored_msg` from `src/message_export.rs`: the
stored source line is re-parsed (`None` models the panic of the two
`unwrap()` calls when parsing fails); non-exported variants are dropped;
`CLEARCHAT`/`CLEARMSG` set the `deleted_by_moderation` flag on prior frames;
ignored NOTICE types are dropped; the message is appended as a new frame. -/
def append_stored_msg (frames : List ContainerFrame) (message : StoredMessage) :
    Option (List ContainerFrame) :=
  match (parseIRC message.messageSource).bind tryFromIRC with
  | none => none
  | some sm =>
      if ¬ isExportedKind sm.details then some frames
      else
        let newFrame : ContainerFrame := ⟨sm, message.timeReceived, false⟩
        match sm.details with
        | .clearChat _ .chatCleared =>
            some (frames.map markDeleted ++ [newFrame])
        | .clearChat _ (.userTimedOut _ uid _) =>
            some ((frames.map fun f =>
              if senderMatches uid f then markDeleted f else f) ++ [newFrame])
        | .clearChat _ (.userBanned _ uid) =>
            some ((frames.map fun f =>
              if senderMatches uid f then markDeleted f else f) ++ [newFrame])
        | .clearMsg _ mid =>
            some ((frames.map fun f =>
              if messageIdMatches mid f then markDeleted f else f) ++ [newFrame])
        | .notice _ (some mid) =>
            if isIgnoredNoticeId mid then some frames
            else some (frames ++ [newFrame])
        | _ => some (frames ++ [newFrame])

/-- `MessageContainer::export`: export all frames, eliding the `None`s. -/
def containerExport (frames : List ContainerFrame)
    (options : GetRecentMessagesQueryOptions) : List Str :=
  frames.filterMap (fun f => f.export options)

/-- `export_stored_messages` from `src/message_export.rs`: fold the stored
messages into the container, then export.  `None` models the panic on an
unparseable stored line. -/
def export_stored_messages (storedMessages : List StoredMessage)
    (options : GetRecentMessagesQueryOptions) : Option (List Str) :=
  (storedMessages.foldlM append_stored_msg []).map
    (fun frames => containerExport frames options)

/-! ## Auth validation (`src/web/auth.rs`) -/

/-- The storage-layer error (`deadpool`'s pool or query failure). -/
inductive StorageError where
  | poolError
  | queryError
deriving DecidableEq, Repr

/-- The `ApiError` enum from `src/web/error.rs`, with payloads reduced to
what the mappings inspect. -/
inductive ApiError where
  | notFound
  | requestTimeout
  | methodNotAllowed
  | invalidPath
  | invalidQuery
  | invalidPayload
  | headerValueNotUtf8
  | missingHeader
  | invalidChannelLogin
  | channelIgnored (channelLogin : Str)
  | invalidAuthorizationCode
  | malformedAuthorizationHeader
  | unauthorized
  | exchangeCodeForAccessToken
  | queryUserDetails
  | saveUserAuthorization (e : StorageError)
  | updateUserAuthorization (e : StorageError)
  | queryAccessToken (e : StorageError)
  | failedTwitchAccessTokenRefresh
  | authorizationRevokeFailed (e : StorageError)
  | getChannelIgnored (e : StorageError)
  | setChannelIgnored (e : StorageError)
  | getMessages (e : StorageError)
  | purgeMessages (e : StorageError)
deriving DecidableEq, Repr

/-- `ApiError::status_code` from `src/web/error.rs`. -/
def ApiError.status_code : ApiError → Nat
  | .exchangeCodeForAccessToken => 500
  | .queryUserDetails => 500
  | .saveUserAuthorization _ => 500
  | .updateUserAuthorization _ => 500
  | .queryAccessToken _ => 500
  | .failedTwitchAccessTokenRefresh => 500
  | .authorizationRevokeFailed _ => 500
  | .getChannelIgnored _ => 500
  | .setChannelIgnored _ => 500
  | .getMessages _ => 500
  | .purgeMessages _ => 500
  | .notFound => 404
  | .requestTimeout => 408
  | .methodNotAllowed => 405
  | .invalidPath => 400
  | .invalidQuery => 400
  | .invalidPayload => 400
  | .headerValueNotUtf8 => 400
  | .missingHeader => 400
  | .invalidChannelLogin => 400
  | .channelIgnored _ => 403
  | .invalidAuthorizationCode => 400
  | .malformedAuthorizationHeader => 400
  | .unauthorized => 401

/-- The upstream Twitch access/refresh token pair. -/
structure TwitchUserAccessToken where
  access_token : Str
  refresh_token : Str
deriving DecidableEq, Repr

/-- Cached profile data returned by the Helix `/users` probe. -/
structure HelixUser where
  id : Str
  login : Str
  display_name : Str
  profile_image_url : Str
deriving DecidableEq, Repr

/-- A `UserAuthorization` row (`src/web/auth.rs`). -/
structure UserAuthorization where
  access_token : Str
  twitch_token : TwitchUserAccessToken
  twitch_authorization_last_validated : Int
  valid_until : Int
  user_id : Str
  user_login : Str
  user_name : Str
  user_profile_image_url : Str
deriving DecidableEq, Repr

/-- Outcome of one upstream Helix `/users` probe. -/
inductive ProbeResult where
  | success (user : HelixUser)
  | http401
  | otherFailure
deriving DecidableEq, Repr

/-- Outcome of one upstream token refresh. -/
inductive RefreshResult where
  | success (token : TwitchUserAccessToken)
  | http400
  | otherFailure
deriving DecidableEq, Repr

/-- The upstream responses an auth validation may consume: the first probe,
the (at most one) refresh, and the retried probe. -/
structure UpstreamEnv where
  probe1 : ProbeResult
  refresh : RefreshResult
  probe2 : ProbeResult
deriving DecidableEq, Repr

/-- `UserAuthorization::refresh_token`: a 400 from the refresh endpoint is
`Unauthorized` (the user revoked the connection); other upstream failures are
`FailedTwitchAccessTokenRefresh`; on success the stored Twitch token pair is
replaced. -/
def refresh_token (auth : UserAuthorization) (r : RefreshResult) :
    Except ApiError UserAuthorization :=
  match r with
  | .success tok => .ok { auth with twitch_token := tok }
  | .http400 => .error .unauthorized
  | .otherFailure => .error .failedTwitchAccessTokenRefresh

/-- The Helix probe of `validate_still_valid_inner`: a 401 is
`Unauthorized`; any other upstream failure is mapped (as in the source) to
`FailedTwitchAccessTokenRefresh`. -/
def probeUser (p : ProbeResult) : Except ApiError HelixUser :=
  match p with
  | .success u => .ok u
  | .http401 => .error .unauthorized
  | .otherFailure => .error .failedTwitchAccessTokenRefresh

/-- The success path of the probe: the cached profile is updated and
`twitch_authorization_last_validated` advances to now. -/
def applyProbeSuccess (auth : UserAuthorization) (u : HelixUser) (now : Int) :
    UserAuthorization :=
  { auth with
      twitch_authorization_last_validated := now
      user_id := u.id
      user_login := u.login
      user_name := u.display_name }

/-- The recursive call of `validate_still_valid_inner` with
`try_refresh_if_invalid = false`: an `Unauthorized` probe outcome is returned
as-is (no refresh).  Returns the result together with the number of refreshes
and probes performed. -/
def validate_inner_no_refresh (auth : UserAuthorization) (p : ProbeResult)
    (now : Int) : Except ApiError UserAuthorization × Nat × Nat :=
  match probeUser p with
  | .ok u => (.ok (applyProbeSuccess auth u now), 0, 1)
  | .error e => (.error e, 0, 1)

/-- `UserAuthorization::validate_still_valid_inner` with
`try_refresh_if_invalid = true`: a 401 from the probe triggers one refresh
and one retried probe (via the recursive call with the flag false); a
failing refresh propagates its error.  Returns the result together with the
number of refreshes and probes performed. -/
def validate_still_valid_inner (auth : UserAuthorization) (env : UpstreamEnv)
    (now : Int) : Except ApiError UserAuthorization × Nat × Nat :=
  match probeUser env.probe1 with
  | .ok u => (.ok (applyProbeSuccess auth u now), 0, 1)
  | .error .unauthorized =>
      match refresh_token auth env.refresh with
      | .error e => (.error e, 1, 1)
      | .ok auth₁ =>
          let r := validate_inner_no_refresh auth₁ env.probe2 now
          (r.1, r.2.1 + 1, r.2.2 + 1)
  | .error e => (.error e, 0, 1)

/-! ## Purge endpoint (`src/web/purge.rs`) -/

/-- `purge_messages` from `src/web/purge.rs`: the result of the storage
operation is discarded and the endpoint unconditionally replies
`204 No Content`. -/
def purge_messages_endpoint (purgeResult : Except StorageError Unit) : Nat :=
  match purgeResult with
  | _ => 204

/-! ## Theorems -/

/-- Concrete channel login used for the C1 evaluation. -/
def c1Channel : Str := "chan".toList

/-- Concrete stored wire line used for the C1 evaluation. -/
def c1Source : Str := ":alice!alice@a.tv PRIVMSG #chan :hi".toList

/-- C1: the stored-message fetch used by the read path is claimed to honor
exclusive `before`/`after` bounds.  The code's `get_messages`
(`src/db.rs:478`) takes no `before`/`after` at all — its SQL filters only on
`channel_login` — even though the endpoint (`src/web/get_recent_messages.rs`)
passes both.  Evaluation at the failing input: a single message received at
100 ms is returned by the code although a request with `before = 50 ms`
requires (per the claim and per `get_messages_spec`) that no message be
returned. -/
theorem claim_c1_code_eval :
    get_messages [⟨c1Channel, 100000000, c1Source⟩] c1Channel none 500 =
      [⟨100000000, c1Source⟩] ∧
    get_messages_spec [⟨c1Channel, 100000000, c1Source⟩] c1Channel none
      (some 50000000) none 500 = [] := by
  constructor <;> rfl

/-- C2: the claim says the partition for channel `c` is
`1 + (murmur3_32(c) mod N)`, never the main partition 0 when `N > 0`.  The
code computes `murmur3_32(c) mod (N + 1)` instead, which is 0 for channel
login `a` with `N = 1` shard: the message rows of `a` are routed to the main
partition even though a shard exists. -/
theorem claim_c2_counterexample :
    channel_to_partition_id ("a".toList) 1 = 0 ∧
    murmur3_32 (strBytes ("a".toList)) 0 % 2 = 0 ∧
    1 + murmur3_32 (strBytes ("a".toList)) 0 % 1 = 1 := by
  refine ⟨by decide, by decide, by decide⟩

/-- C2 (amended): the partition chosen for channel `c` with `N` shard
partitions is `murmur3_32(c) mod (N + 1)` — a deterministic function of `c`
and `N` alone, always at most `N`, and equal to the main partition 0 whenever
`N = 0` (but possibly also 0 when `N > 0`). -/
theorem claim_c2_amended (c : Str) (n : Nat) :
    channel_to_partition_id c n = murmur3_32 (strBytes c) 0 % (n + 1) ∧
    channel_to_partition_id c n ≤ n ∧
    channel_to_partition_id c 0 = 0 := by
  refine ⟨rfl, ?_, ?_⟩
  · have h := Nat.mod_lt (murmur3_32 (strBytes c) 0) (y := n + 1) (by omega)
    unfold channel_to_partition_id
    omega
  · unfold channel_to_partition_id
    omega

/-- C9: the claim says a failing `purge_messages` storage operation yields
HTTP 500.  The handler in `src/web/purge.rs` discards the storage result and
unconditionally replies 204, although `src/web/error.rs` maps the (never
constructed) `ApiError::PurgeMessages` to 500. -/
theorem claim_c9_code_eval :
    purge_messages_endpoint (.error .poolError) = 204 ∧
    (ApiError.purgeMessages .poolError).status_code = 500 ∧
    (204 : Nat) ≠ 500 := by
  refine ⟨rfl, rfl, by omega⟩

/-- C10: `MessageContainer::append_stored_msg` unwraps both
`IRCMessage::parse` and `ServerMessage::try_from`; a stored line that fails
either one panics (modelled as `none`) instead of returning an error or
skipping the row.  Witnessed by the empty line (parse failure: empty
command) and by a bare `PRIVMSG` line with no parameters (try_from
failure). -/
theorem claim_c10_unparseable_panics :
    append_stored_msg [] ⟨0, []⟩ = none ∧
    parseIRC [] = none ∧
    append_stored_msg [] ⟨0, cmdPRIVMSG⟩ = none ∧
    (parseIRC cmdPRIVMSG).bind tryFromIRC = none := by
  refine ⟨rfl, rfl, by decide, by decide⟩

/-- The drain loop of the chunk worker takes exactly the first
`maxChunk - chunk.length` queued items (all of them when fewer are queued). -/
theorem drainLoop_eq_take_drop {α : Type} (queue : List α) (chunk : List α)
    (maxChunk : Nat) (h : chunk.length < maxChunk) :
    drainLoop queue chunk maxChunk =
      (chunk ++ queue.take (maxChunk - chunk.length),
        queue.drop (maxChunk - chunk.length)) := by
  induction queue generalizing chunk with
  | nil => simp [drainLoop]
  | cons m rest ih =>
      rw [drainLoop]
      by_cases hle : maxChunk ≤ chunk.length + 1
      · rw [if_pos hle]
        have h1 : maxChunk - chunk.length = 1 := by omega
        rw [h1]
        simp
      · rw [if_neg hle]
        rw [ih (chunk ++ [m]) (by simp; omega)]
        have h2 : maxChunk - chunk.length =
            (maxChunk - (chunk ++ [m]).length) + 1 := by simp; omega
        rw [h2]
        simp

/-- C4 (amended): on every tick the batch worker drains the queue
non-blockingly up to the hard-coded `max_chunk_size = 10000` items — not the
configured `forwarder_max_chunk_size`, which `run_forwarder` never reads —
sleeps for `forwarder_run_every` exactly when the drained chunk is smaller
than 10000, and hands the chunk to `append_messages` exactly when it is
nonempty. -/
theorem claim_c4_amended {α : Type} (queue : List α) :
    (chunkWorkerTick queue).1 = queue.take max_chunk_size ∧
    (chunkWorkerTick queue).2.1 = queue.drop max_chunk_size ∧
    (chunkWorkerTick queue).2.2.1 = decide (queue.length < max_chunk_size) ∧
    (chunkWorkerTick queue).2.2.2 = !queue.isEmpty := by
  have h := drainLoop_eq_take_drop queue [] max_chunk_size
    (by simp [max_chunk_size])
  simp only [List.length_nil, Nat.sub_zero, List.nil_append] at h
  refine ⟨?_, ?_, ?_, ?_⟩ <;> simp only [chunkWorkerTick, h]
  · simp only [List.length_take, decide_eq_decide, max_chunk_size]
    omega
  · have h1 : ∀ (l : List α), l.isEmpty = decide (l.length = 0) := by
      intro l; cases l <;> simp
    rw [h1, h1]
    congr 1
    rw [decide_eq_decide]
    simp only [List.length_take, max_chunk_size]
    omega

/-- C4: the claim says the chunk is bounded by the configured
`forwarder_max_chunk_size` (default 256, `src/config.rs`).  With 257 queued
items the worker drains all 257 in one chunk, exceeding the configured
bound: the bound actually used is the hard-coded 10000 of
`run_forwarder`. -/
theorem claim_c4_counterexample :
    (chunkWorkerTick (List.replicate 257 (0 : Nat))).1.length = 257 ∧
    forwarder_max_chunk_size_default = 256 ∧ 256 < 257 := by
  refine ⟨?_, rfl, by omega⟩
  have h := drainLoop_eq_take_drop (List.replicate 257 (0 : Nat)) []
    max_chunk_size (by simp [max_chunk_size])
  simp only [List.length_nil, Nat.sub_zero, List.nil_append] at h
  simp only [chunkWorkerTick, h]
  simp only [List.length_take, List.length_replicate, max_chunk_size]
  omega

/-- C7: during auth validation a 401 from the user probe triggers at most
one token refresh followed by exactly one retried probe; a 400 from the
refresh, or a second 401 from the retried probe, yields `Unauthorized` and
no further refresh is attempted; a successful first probe performs no
refresh and updates the cached profile. -/
theorem claim_c7_auth_refresh (auth : UserAuthorization) (env : UpstreamEnv)
    (now : Int) :
    (validate_still_valid_inner auth env now).2.1 ≤ 1 ∧
    (validate_still_valid_inner auth env now).2.2 ≤ 2 ∧
    (env.probe1 = .http401 ∧ env.refresh = .http400 →
      validate_still_valid_inner auth env now = (.error .unauthorized, 1, 1)) ∧
    (∀ tok, env.probe1 = .http401 ∧ env.refresh = .success tok →
      (validate_still_valid_inner auth env now).2 = (1, 2)) ∧
    (∀ tok, env.probe1 = .http401 ∧ env.refresh = .success tok ∧
        env.probe2 = .http401 →
      validate_still_valid_inner auth env now = (.error .unauthorized, 1, 2)) ∧
    (∀ u, env.probe1 = .success u →
      validate_still_valid_inner auth env now =
        (.ok (applyProbeSuccess auth u now), 0, 1)) := by
  obtain ⟨p1, rf, p2⟩ := env
  cases p1 <;> cases rf <;> cases p2 <;>
    simp [validate_still_valid_inner, validate_inner_no_refresh, probeUser,
      refresh_token]

/-- Concrete authorization row used to instantiate the C7 theorem. -/
def c7Auth : UserAuthorization := ⟨[], ⟨[], []⟩, 0, 0, [], [], [], []⟩

/-- C7 witness: at the concrete upstream behaviour "first probe 401, refresh
400", validation returns `Unauthorized` after exactly one refresh attempt and
one probe. -/
theorem claim_c7_witness :
    validate_still_valid_inner c7Auth ⟨.http401, .http400, .http401⟩ 0 =
      (.error .unauthorized, 1, 1) :=
  (claim_c7_auth_refresh c7Auth ⟨.http401, .http400, .http401⟩ 0).2.2.1
    ⟨rfl, rfl⟩

/-- Appending tag lists distributes over lookup. -/
theorem lookupTag_append (a b : List (Str × Option Str)) (k : Str) :
    lookupTag (a ++ b) k =
      match lookupTag a k with
      | some v => some v
      | none => lookupTag b k := by
  induction a with
  | nil => simp [lookupTag]
  | cons kv rest ih =>
      obtain ⟨k₁, v⟩ := kv
      by_cases h : k₁ = k
      · simp [lookupTag, h]
      · simp [lookupTag, h, ih]

/-- A key that no entry carries looks up to `none`. -/
theorem lookupTag_none_of_not_any (tags : List (Str × Option Str)) (k : Str)
    (h : tags.any (fun kv => decide (kv.1 = k)) = false) :
    lookupTag tags k = none := by
  induction tags with
  | nil => rfl
  | cons kv rest ih =>
      obtain ⟨k₁, v⟩ := kv
      simp only [List.any_cons, Bool.or_eq_false_iff] at h
      have h1 : ¬ (k₁ = k) := by simpa using h.1
      simp [lookupTag, h1, ih h.2]

/-- Replacing the value at a present key makes it look up to the new value. -/
theorem lookupTag_map_replace (tags : List (Str × Option Str)) (k : Str)
    (v : Option Str)
    (h : tags.any (fun kv => decide (kv.1 = k)) = true) :
    lookupTag (tags.map (fun kv => if kv.1 = k then (k, v) else kv)) k =
      some v := by
  induction tags with
  | nil => simp at h
  | cons kv rest ih =>
      obtain ⟨k₁, v₁⟩ := kv
      simp only [List.map_cons]
      by_cases h1 : k₁ = k
      · subst h1
        rw [show (if (k₁, v₁).1 = k₁ then (k₁, v) else (k₁, v₁)) = (k₁, v)
            from if_pos rfl]
        simp [lookupTag]
      · rw [show (if (k₁, v₁).1 = k then (k, v) else (k₁, v₁)) = (k₁, v₁)
            from if_neg h1]
        simp only [List.any_cons, Bool.or_eq_true] at h
        have h2 : rest.any (fun kv => decide (kv.1 = k)) = true := by
          rcases h with h | h
          · exact absurd (of_decide_eq_true h) h1
          · exact h
        simp [lookupTag, h1, ih h2]

/-- Inserting a tag makes its key look up to the inserted value. -/
theorem lookupTag_insertTag_self (tags : List (Str × Option Str)) (k : Str)
    (v : Option Str) : lookupTag (insertTag tags k v) k = some v := by
  unfold insertTag
  cases ha : tags.any (fun kv => decide (kv.1 = k)) with
  | true =>
      simp only [ha, if_true]
      exact lookupTag_map_replace tags k v ha
  | false =>
      simp only [ha, Bool.false_eq_true, if_false]
      rw [lookupTag_append]
      rw [lookupTag_none_of_not_any tags k ha]
      simp [lookupTag]

/-- Inserting a tag does not change the lookup of a different key. -/
theorem lookupTag_insertTag_ne (tags : List (Str × Option Str))
    (k k₁ : Str) (v : Option Str) (h : k₁ ≠ k) :
    lookupTag (insertTag tags k₁ v) k = lookupTag tags k := by
  unfold insertTag
  cases ha : tags.any (fun kv => decide (kv.1 = k₁)) with
  | true =>
      simp only [ha, if_true]
      clear ha
      induction tags with
      | nil => rfl
      | cons kv rest ih =>
          obtain ⟨k₂, v₂⟩ := kv
          simp only [List.map_cons]
          by_cases h2 : k₂ = k₁
          · subst h2
            rw [show (if (k₂, v₂).1 = k₂ then (k₂, v) else (k₂, v₂)) = (k₂, v)
                from if_pos rfl]
            simp only [lookupTag]
            rw [if_neg h, if_neg h]
            exact ih
          · rw [show (if (k₂, v₂).1 = k₁ then (k₁, v) else (k₂, v₂)) = (k₂, v₂)
                from if_neg h2]
            by_cases h3 : k₂ = k
            · simp [lookupTag, h3]
            · simp only [lookupTag]
              rw [if_neg h3, if_neg h3]
              exact ih
  | false =>
      simp only [ha, Bool.false_eq_true, if_false]
      rw [lookupTag_append]
      cases hl : lookupTag tags k with
      | some v₂ => simp
      | none => simp [lookupTag, h]

/-- C5: every tuple produced by the ingestion filter carries `now()`
truncated to millisecond precision; truncation leaves no sub-millisecond
component; millisecond-truncated instants are recovered exactly from their
integer-millisecond form; and every exported frame carries an
`rm-received-ts` tag whose value is exactly the stored `time_received`
rendered as integer milliseconds. -/
theorem claim_c5_timestamps :
    (∀ (m : ServerMessage) (now : Int) (tup : Str × Int × Str),
        forward_filter m now = some tup → tup.2.1 = truncMillis now) ∧
    (∀ t : Int, truncMillis t % 1000000 = 0) ∧
    (∀ t : Int, t % 1000000 = 0 → timestampMillis t * 1000000 = t) ∧
    (∀ (f : ContainerFrame) (opts : GetRecentMessagesQueryOptions)
        (m : IRCMessage), f.exportMessage opts = some m →
        lookupTag m.tags tagRmReceivedTs =
          some (some (intToStr (timestampMillis f.time_received)))) := by
  refine ⟨?_, ?_, ?_, ?_⟩
  · intro m now tup h
    unfold forward_filter at h
    obtain ⟨cl, hcl, htup⟩ := Option.map_eq_some'.mp h
    rw [← htup]
  · intro t
    unfold truncMillis
    rw [Int.sub_emod]
    simp
  · intro t h
    unfold timestampMillis
    exact Int.ediv_mul_cancel_of_emod_eq_zero h
  · intro f opts m h
    simp only [ContainerFrame.exportMessage] at h
    by_cases h₁ : (opts.hide_moderated_messages && f.deleted_by_moderation)
        = true
    · rw [if_pos h₁] at h; cases h
    · rw [if_neg h₁] at h
      by_cases h₂ : (opts.hide_moderation_messages &&
          isModerationMessage f.original_message.details) = true
      · rw [if_pos h₂] at h; cases h
      · rw [if_neg h₂] at h
        simp only [Option.some_inj] at h
        subst h
        by_cases hd : f.deleted_by_moderation = true
        · simp only [hd, if_true]
          rw [lookupTag_insertTag_ne _ tagRmReceivedTs tagRmDeleted _
            (by decide)]
          exact lookupTag_insertTag_self _ _ _
        · simp only [hd, Bool.false_eq_true, if_false]
          exact lookupTag_insertTag_self _ _ _

/-- Concrete `IRCMessage` for the C5 witness. -/
def c5IRC : IRCMessage :=
  ⟨[(tagId, some ("abc".toList)), (tagUserId, some ("42".toList))],
    some (.full ("alice".toList) ("alice".toList) ("a.tv".toList)),
    cmdPRIVMSG, ["#chan".toList, "hi".toList]⟩

/-- Concrete parsed server message for the C5 witness. -/
def c5Msg : ServerMessage :=
  ⟨c5IRC, .privmsg ("chan".toList) ("42".toList) ("abc".toList)⟩

/-- Concrete container frame for the C5 witness (received at
1700000000123 ms exactly). -/
def c5Frame : ContainerFrame := ⟨c5Msg, 1700000000123000000, false⟩

/-- The tuple the ingestion filter produces for `c5Msg` at wall clock
1700000000123456789 ns. -/
def c5Tup : Str × Int × Str :=
  ("chan".toList, 1700000000123000000, asRawIRC c5IRC)

/-- The message exported from `c5Frame` with default options. -/
def c5ExpMsg : IRCMessage :=
  ⟨[(tagId, some ("abc".toList)), (tagUserId, some ("42".toList)),
    (tagHistorical, some strOne),
    (tagRmReceivedTs, some ("1700000000123".toList))],
    c5IRC.pfx, cmdPRIVMSG, c5IRC.params⟩

/-- C5 witness: the theorem instantiated at a concrete message, wall-clock
instant with nonzero sub-millisecond part, and a concrete export. -/
theorem claim_c5_witness :
    c5Tup.2.1 = truncMillis 1700000000123456789 ∧
    truncMillis 1700000000123456789 % 1000000 = 0 ∧
    timestampMillis 1700000000123000000 * 1000000 = 1700000000123000000 ∧
    lookupTag c5ExpMsg.tags tagRmReceivedTs =
      some (some (intToStr (timestampMillis c5Frame.time_received))) :=
  ⟨claim_c5_timestamps.1 c5Msg 1700000000123456789 c5Tup (by decide),
    claim_c5_timestamps.2.1 1700000000123456789,
    claim_c5_timestamps.2.2.1 1700000000123000000 (by decide),
    claim_c5_timestamps.2.2.2 c5Frame defaultQueryOptions c5ExpMsg (by decide)⟩

instance : IsTotal MessageRow rowGE :=
  ⟨fun a b => le_total b.timeReceived a.timeReceived⟩

instance : IsTrans MessageRow rowGE :=
  ⟨fun _ _ _ h₁ h₂ => le_trans h₂ h₁⟩

/-- C3: the claim requires that after the vacuum DELETE at most
`max_buffer_size` messages remain, for every multiset of rows including
millisecond ties.  With `max_buffer_size = 1` and two rows sharing the same
`time_received`, the strict `<` comparison against the cutoff row deletes
nothing (and the age cutoff does not apply), so two rows remain. -/
theorem claim_c3_counterexample :
    (run_message_vacuum_channel
        [⟨"chan".toList, 1000000000, "a".toList⟩,
         ⟨"chan".toList, 1000000000, "b".toList⟩]
        1500000000 1000000000000 1).length = 2 ∧ 1 < 2 := by
  constructor
  · rfl
  · omega

/-- In a strictly descending list, at most `k + 1` elements are at least the
element at index `k`. -/
theorem countP_ge_le_of_sorted_gt (l : List Int) (k : Nat) (c : Int)
    (hs : List.Pairwise (fun a b => b < a) l) (hget : l.get? k = some c) :
    l.countP (fun t => decide (c ≤ t)) ≤ k + 1 := by
  induction k generalizing l with
  | zero =>
      cases l with
      | nil => simp at hget
      | cons a rest =>
          simp only [List.get?_cons_zero, Option.some_inj] at hget
          rw [← hget]
          rw [List.countP_cons]
          have h0 : rest.countP (fun t => decide (a ≤ t)) = 0 := by
            rw [List.countP_eq_zero]
            intro t ht
            have := (List.pairwise_cons.mp hs).1 t ht
            simp only [decide_eq_true_eq]
            omega
          rw [h0]
          split <;> omega
  | succ k ih =>
      cases l with
      | nil => simp at hget
      | cons a rest =>
          simp only [List.get?_cons_succ] at hget
          have hr := ih rest (List.pairwise_cons.mp hs).2 hget
          rw [List.countP_cons]
          split <;> omega

/-- C3 (amended): after the vacuum DELETE for a channel, no remaining row is
older than `now - messages_expire_after`; and when the stored rows have
pairwise distinct `time_received` values, at most `max_buffer_size` rows
remain.  (With equal-timestamp ties, every row sharing the cutoff timestamp
survives, so the count bound can be exceeded — see the counterexample.) -/
theorem claim_c3_vacuum_amended (rows : List MessageRow) (now : Int)
    (messagesExpireAfter : Int) (maxBufferSize : Nat)
    (hbuf : 1 ≤ maxBufferSize) :
    (∀ r ∈ run_message_vacuum_channel rows now messagesExpireAfter
        maxBufferSize, now - messagesExpireAfter ≤ r.timeReceived) ∧
    ((rows.map (fun r => r.timeReceived)).Nodup →
      (run_message_vacuum_channel rows now messagesExpireAfter
          maxBufferSize).length ≤ maxBufferSize) := by
  constructor
  · intro r hr
    rw [run_message_vacuum_channel, List.mem_filter] at hr
    have h2 := hr.2
    simp only [decide_eq_true_eq, vacuumDeletes] at h2
    push_neg at h2
    omega
  · intro hnd
    set l := ((rows.insertionSort rowGE).map (fun r => r.timeReceived))
      with hl
    have hperm : l.Perm (rows.map (fun r => r.timeReceived)) :=
      (List.perm_insertionSort rowGE rows).map _
    cases hc : vacuumCutoff rows maxBufferSize with
    | none =>
        rw [vacuumCutoff, ← hl, List.get?_eq_none] at hc
        have hlen : rows.length = l.length := by
          rw [hl, List.length_map, List.length_insertionSort]
        have hle : (run_message_vacuum_channel rows now messagesExpireAfter
            maxBufferSize).length ≤ rows.length := by
          rw [run_message_vacuum_channel]
          exact List.length_filter_le _ _
        omega
    | some c =>
        have hsorted : List.Pairwise (fun a b : Int => b ≤ a) l := by
          rw [hl]
          exact List.Pairwise.map _ (fun a b h => h)
            (List.sorted_insertionSort rowGE rows)
        have hnodup : l.Nodup := hperm.nodup_iff.mpr hnd
        have hgt : List.Pairwise (fun a b : Int => b < a) l := by
          have := hsorted.and hnodup
          exact this.imp (fun h => lt_of_le_of_ne h.1 (Ne.symm h.2))
        have hget : l.get? (maxBufferSize - 1) = some c := by
          rw [hl]; exact hc
        have hcount := countP_ge_le_of_sorted_gt l (maxBufferSize - 1) c hgt
          hget
        have hcount2 : (rows.map (fun r => r.timeReceived)).countP
            (fun t => decide (c ≤ t)) ≤ maxBufferSize - 1 + 1 := by
          rw [← hperm.countP_eq]
          exact hcount
        rw [List.countP_map] at hcount2
        have hfil : (run_message_vacuum_channel rows now messagesExpireAfter
            maxBufferSize).length ≤ rows.countP
              (fun r => decide (c ≤ r.timeReceived)) := by
          rw [run_message_vacuum_channel, ← List.countP_eq_length_filter]
          apply List.countP_mono_left
          intro r _ hpr
          simp only [hc, decide_eq_true_eq, vacuumDeletes] at hpr ⊢
          push_neg at hpr
          omega
        have : rows.countP ((fun t => decide (c ≤ t)) ∘
            (fun r => r.timeReceived)) =
            rows.countP (fun r => decide (c ≤ r.timeReceived)) := rfl
        omega

/-- Concrete rows with distinct timestamps for the C3 witness. -/
def c3Rows : List MessageRow :=
  [⟨"chan".toList, 1000000000, "a".toList⟩,
   ⟨"chan".toList, 2000000000, "b".toList⟩]

/-- C3 witness: the amended theorem instantiated at two rows with distinct
timestamps and `max_buffer_size = 1`. -/
theorem claim_c3_witness :
    (∀ r ∈ run_message_vacuum_channel c3Rows 2500000000 1000000000000 1,
      (2500000000 : Int) - 1000000000000 ≤ r.timeReceived) ∧
    (run_message_vacuum_channel c3Rows 2500000000 1000000000000 1).length
      ≤ 1 := by
  have h := claim_c3_vacuum_amended c3Rows 2500000000 1000000000000 1
    (by omega)
  exact ⟨h.1, h.2 (by decide)⟩

/-- C6: in the replay transformation, a target-less `CLEARCHAT` marks every
prior frame deleted; a `CLEARCHAT` targeting a user (timeout or ban) marks
exactly the prior `PRIVMSG`/`USERNOTICE` frames whose sender id equals the
target user id; a `CLEARMSG` marks exactly the prior `PRIVMSG`/`USERNOTICE`
frames with the matching message id; and a marked frame is elided when
`hide_moderated_messages` is set, otherwise its export carries the
`rm-deleted=1` tag. -/
theorem claim_c6_moderation_fanout :
    (∀ (frames : List ContainerFrame) (st : StoredMessage)
        (sm : ServerMessage),
        (parseIRC st.messageSource).bind tryFromIRC = some sm →
        (∀ chan, sm.details = .clearChat chan .chatCleared →
          append_stored_msg frames st =
            some (frames.map markDeleted ++ [⟨sm, st.timeReceived, false⟩])) ∧
        (∀ chan ul uid len,
          sm.details = .clearChat chan (.userTimedOut ul uid len) →
          append_stored_msg frames st =
            some ((frames.map fun f =>
              if senderMatches uid f then markDeleted f else f) ++
              [⟨sm, st.timeReceived, false⟩])) ∧
        (∀ chan ul uid, sm.details = .clearChat chan (.userBanned ul uid) →
          append_stored_msg frames st =
            some ((frames.map fun f =>
              if senderMatches uid f then markDeleted f else f) ++
              [⟨sm, st.timeReceived, false⟩])) ∧
        (∀ chan mid, sm.details = .clearMsg chan mid →
          append_stored_msg frames st =
            some ((frames.map fun f =>
              if messageIdMatches mid f then markDeleted f else f) ++
              [⟨sm, st.timeReceived, false⟩]))) ∧
    (∀ (f : ContainerFrame) (opts : GetRecentMessagesQueryOptions),
        f.deleted_by_moderation = true →
        (opts.hide_moderated_messages = true → f.export opts = none) ∧
        (∀ m, f.exportMessage opts = some m →
          lookupTag m.tags tagRmDeleted = some (some strOne))) := by
  constructor
  · intro frames st sm hparse
    refine ⟨?_, ?_, ?_, ?_⟩
    · intro chan hdet
      simp [append_stored_msg, hparse, hdet, isExportedKind]
    · intro chan ul uid len hdet
      simp [append_stored_msg, hparse, hdet, isExportedKind]
    · intro chan ul uid hdet
      simp [append_stored_msg, hparse, hdet, isExportedKind]
    · intro chan mid hdet
      simp [append_stored_msg, hparse, hdet, isExportedKind]
  · intro f opts hdel
    constructor
    · intro hhide
      simp [ContainerFrame.export, ContainerFrame.exportMessage, hdel, hhide]
    · intro m h
      simp only [ContainerFrame.exportMessage] at h
      by_cases h₁ : (opts.hide_moderated_messages &&
          f.deleted_by_moderation) = true
      · rw [if_pos h₁] at h; cases h
      · rw [if_neg h₁] at h
        by_cases h₂ : (opts.hide_moderation_messages &&
            isModerationMessage f.original_message.details) = true
        · rw [if_pos h₂] at h; cases h
        · rw [if_neg h₂] at h
          simp only [Option.some_inj] at h
          subst h
          simp only [hdel, if_true]
          exact lookupTag_insertTag_self _ _ _

/-- Concrete `PRIVMSG` frame (sender id 42) for the C6 witness. -/
def c6PrivIRC : IRCMessage :=
  ⟨[(tagId, some ("m1".toList)), (tagUserId, some ("42".toList))],
    some (.full ("alice".toList) ("alice".toList) ("a.tv".toList)),
    cmdPRIVMSG, ["#chan".toList, "hi".toList]⟩

/-- Concrete parsed `PRIVMSG` for the C6 witness. -/
def c6PrivMsg : ServerMessage :=
  ⟨c6PrivIRC, .privmsg ("chan".toList) ("42".toList) ("m1".toList)⟩

/-- Concrete container frame for the C6 witness. -/
def c6PrivFrame : ContainerFrame := ⟨c6PrivMsg, 1700000000123000000, false⟩

/-- Concrete stored `CLEARCHAT` ban line targeting user id 42. -/
def c6ClearLine : Str :=
  "@target-user-id=42 :tmi.twitch.tv CLEARCHAT #chan :alice".toList

/-- The parsed form of `c6ClearLine`. -/
def c6ClearSM : ServerMessage :=
  ⟨⟨[(tagTargetUserId, some ("42".toList))], some (.hostOnly strTmiHost),
      cmdCLEARCHAT, ["#chan".toList, "alice".toList]⟩,
    .clearChat ("chan".toList)
      (.userBanned ("alice".toList) ("42".toList))⟩

/-- The export of the moderated (deleted) C6 frame under default options. -/
def c6DeletedExp : IRCMessage :=
  ⟨[(tagId, some ("m1".toList)), (tagUserId, some ("42".toList)),
    (tagHistorical, some strOne),
    (tagRmReceivedTs, some ("1700000000123".toList)),
    (tagRmDeleted, some strOne)],
    c6PrivIRC.pfx, cmdPRIVMSG, c6PrivIRC.params⟩

/-- C6 witness: a stored `CLEARCHAT` ban targeting user id 42 marks the
prior `PRIVMSG` of that user; the marked frame is elided under
`hide_moderated_messages` and otherwise carries `rm-deleted=1`. -/
theorem claim_c6_witness :
    append_stored_msg [c6PrivFrame] ⟨1700000000124000000, c6ClearLine⟩ =
      some (([c6PrivFrame].map fun f =>
        if senderMatches ("42".toList) f then markDeleted f else f) ++
        [⟨c6ClearSM, 1700000000124000000, false⟩]) ∧
    (markDeleted c6PrivFrame).export
      { defaultQueryOptions with hide_moderated_messages := true } = none ∧
    lookupTag c6DeletedExp.tags tagRmDeleted = some (some strOne) := by
  refine ⟨?_, ?_, ?_⟩
  · exact ((claim_c6_moderation_fanout.1 [c6PrivFrame]
      ⟨1700000000124000000, c6ClearLine⟩ c6ClearSM (by decide)).2.2.1
      ("chan".toList) ("alice".toList) ("42".toList) rfl)
  · exact (claim_c6_moderation_fanout.2 (markDeleted c6PrivFrame)
      { defaultQueryOptions with hide_moderated_messages := true }
      (by decide)).1 rfl
  · exact (claim_c6_moderation_fanout.2 (markDeleted c6PrivFrame)
      defaultQueryOptions (by decide)).2 c6DeletedExp (by decide)

/-! ## Well-formed wire messages and the serialize/parse round trip (C8) -/

/-- A string without spaces. -/
def noSp (s : Str) : Prop := ∀ c ∈ s, c ≠ ' '

instance (s : Str) : Decidable (noSp s) :=
  inferInstanceAs (Decidable (∀ c ∈ s, c ≠ ' '))

/-- A well-formed tag key: nonempty, without `=`, `;` or spaces. -/
def wfTagKey (k : Str) : Prop :=
  k ≠ [] ∧ ∀ c ∈ k, c ≠ '=' ∧ c ≠ ';' ∧ c ≠ ' '

instance (k : Str) : Decidable (wfTagKey k) :=
  inferInstanceAs (Decidable (_ ∧ _))

/-- A well-formed tag: well-formed key, and a value without `;` or spaces. -/
def wfTag : Str × Option Str → Prop
  | (k, none) => wfTagKey k
  | (k, some v) => wfTagKey k ∧ ∀ c ∈ v, c ≠ ';' ∧ c ≠ ' '

instance : DecidablePred wfTag := fun tg =>
  match tg with
  | (k, none) => inferInstanceAs (Decidable (wfTagKey k))
  | (_, some _) => inferInstanceAs (Decidable (_ ∧ _))

/-- A well-formed prefix: nonempty components, the host-only host and the
nick without `!`, the user without `@`, none with spaces. -/
def wfPfx : IRCPfx → Prop
  | .hostOnly host => host ≠ [] ∧ ∀ c ∈ host, c ≠ ' ' ∧ c ≠ '!'
  | .full nick user host =>
      (nick ≠ [] ∧ ∀ c ∈ nick, c ≠ ' ' ∧ c ≠ '!') ∧
      (user ≠ [] ∧ ∀ c ∈ user, c ≠ ' ' ∧ c ≠ '@') ∧
      (host ≠ [] ∧ noSp host)

instance : DecidablePred wfPfx := fun p =>
  match p with
  | .hostOnly _ => inferInstanceAs (Decidable (_ ∧ _))
  | .full _ _ _ => inferInstanceAs (Decidable (_ ∧ _))

/-- Well-formedness of an optional prefix. -/
def wfPfxOpt : Option IRCPfx → Prop
  | none => True
  | some p => wfPfx p

instance : DecidablePred wfPfxOpt := fun o =>
  match o with
  | none => inferInstanceAs (Decidable True)
  | some p => inferInstanceAs (Decidable (wfPfx p))

/-- A well-formed `IRCMessage`: well-formed tags and prefix, a nonempty
space-free command not starting with `@` or `:`, and nonempty space-free
middle parameters not starting with `:` (the trailing parameter is
unconstrained). -/
def wfIRCMessage (m : IRCMessage) : Prop :=
  (∀ tg ∈ m.tags, wfTag tg) ∧
  wfPfxOpt m.pfx ∧
  (m.command ≠ [] ∧ (∀ c ∈ m.command, c ≠ ' ') ∧
    m.command.head? ≠ some '@' ∧ m.command.head? ≠ some ':') ∧
  (∀ p ∈ m.params.dropLast, p ≠ [] ∧ noSp p ∧ p.head? ≠ some ':')

instance (m : IRCMessage) : Decidable (wfIRCMessage m) :=
  inferInstanceAs (Decidable (_ ∧ _))

/-- A list whose characters all fail `p` has no split point. -/
theorem splitFirst_eq_none (p : Char → Bool) (s : Str)
    (h : ∀ c ∈ s, p c = false) : splitFirst p s = none := by
  induction s with
  | nil => rfl
  | cons c rest ih =>
      unfold splitFirst
      rw [h c (by simp)]
      simp only [Bool.false_eq_true, if_false]
      rw [ih (fun c hc => h c (by simp [hc]))]
      rfl

/-- Splitting at an explicit separator after a separator-free segment. -/
theorem splitFirst_append (p : Char → Bool) (s r : Str) (sep : Char)
    (hs : ∀ c ∈ s, p c = false) (hsep : p sep = true) :
    splitFirst p (s ++ sep :: r) = some (s, r) := by
  induction s with
  | nil => simp [splitFirst, hsep]
  | cons c rest ih =>
      unfold splitFirst
      rw [List.cons_append]
      show (if p c then some ([], rest ++ sep :: r)
        else (splitFirst p (rest ++ sep :: r)).map
          (fun ab => (c :: ab.1, ab.2))) = _
      rw [hs c (by simp)]
      simp only [Bool.false_eq_true, if_false]
      rw [ih (fun c hc => hs c (by simp [hc]))]
      rfl

/-- `splitSp` of a space-free string returns the whole string. -/
theorem splitSp_of_noSp (s : Str) (h : noSp s) : splitSp s = (s, []) := by
  unfold splitSp
  rw [splitFirst_eq_none _ s (fun c hc => decide_eq_false (h c hc))]

/-- `splitSp` splits at the explicit space after a space-free segment. -/
theorem splitSp_append (s r : Str) (h : noSp s) :
    splitSp (s ++ ' ' :: r) = (s, r) := by
  unfold splitSp
  rw [splitFirst_append _ s r ' ' (fun c hc => decide_eq_false (h c hc))
    (by decide)]

/-- Characters of a joined list come from a segment or are the separator. -/
theorem mem_joinSep (c : Char) (sep : Char) (segs : List Str)
    (h : c ∈ joinSep sep segs) : c = sep ∨ ∃ s ∈ segs, c ∈ s := by
  induction segs with
  | nil => simp [joinSep] at h
  | cons s rest ih =>
      cases rest with
      | nil =>
          simp only [joinSep] at h
          right
          exact ⟨s, by simp, h⟩
      | cons s₂ rest₂ =>
          simp only [joinSep] at h
          rw [List.mem_append, List.mem_cons] at h
          rcases h with h | h | h
          · right; exact ⟨s, by simp, h⟩
          · left; exact h
          · rcases ih h with h | ⟨s₃, hs₃, hc⟩
            · left; exact h
            · right; exact ⟨s₃, by simp [hs₃], hc⟩

/-- The joined list has at least one character per segment beyond the
first. -/
theorem joinSep_length (sep : Char) (segs : List Str) :
    segs.length ≤ (joinSep sep segs).length + 1 := by
  induction segs with
  | nil => simp
  | cons s rest ih =>
      cases rest with
      | nil => simp [joinSep]
      | cons s₂ rest₂ =>
          simp only [joinSep, List.length_append, List.length_cons] at *
          omega

/-- Splitting the joined list recovers the segments, given enough fuel and
separator-free segments. -/
theorem splitAllGo_joinSep (p : Char → Bool) (sep : Char) (segs : List Str)
    (hsep : p sep = true)
    (hsegs : ∀ s ∈ segs, ∀ c ∈ s, p c = false) :
    ∀ fuel, segs.length ≤ fuel + 1 → segs ≠ [] →
      splitAllGo p fuel (joinSep sep segs) = segs := by
  induction segs with
  | nil => intro fuel _ hne; cases hne rfl
  | cons s rest ih =>
      intro fuel hfuel _
      cases rest with
      | nil =>
          show splitAllGo p fuel (joinSep sep [s]) = [s]
          unfold splitAllGo
          rw [show joinSep sep [s] = s from rfl]
          rw [splitFirst_eq_none p s (hsegs s (by simp))]
      | cons s₂ rest₂ =>
          show splitAllGo p fuel (joinSep sep (s :: s₂ :: rest₂)) = _
          unfold splitAllGo
          rw [show joinSep sep (s :: s₂ :: rest₂) =
            s ++ sep :: joinSep sep (s₂ :: rest₂) from rfl]
          rw [splitFirst_append p s _ sep (hsegs s (by simp)) hsep]
          cases fuel with
          | zero => simp at hfuel
          | succ f =>
              show s :: splitAllGo p f (joinSep sep (s₂ :: rest₂)) = _
              rw [ih (fun s hs => hsegs s (by simp [hs])) f
                (by simp at hfuel ⊢; omega) (by simp)]

/-- Parsing a serialized tag recovers the tag. -/
theorem parseTag_serializeTag (tg : Str × Option Str) (h : wfTag tg) :
    parseTag (serializeTag tg) = tg := by
  obtain ⟨k, v⟩ := tg
  cases v with
  | none =>
      unfold parseTag serializeTag
      rw [splitFirst_eq_none _ k
        (fun c hc => decide_eq_false (h.2 c hc).1)]
  | some v =>
      unfold parseTag serializeTag
      rw [splitFirst_append _ k v '='
        (fun c hc => decide_eq_false (h.1.2 c hc).1) (by decide)]

/-- Parsing the serialized tag list recovers it. -/
theorem map_parseTag_serializeTag (tags : List (Str × Option Str))
    (h : ∀ tg ∈ tags, wfTag tg) :
    (tags.map serializeTag).map parseTag = tags := by
  induction tags with
  | nil => rfl
  | cons tg rest ih =>
      simp only [List.map_cons]
      rw [parseTag_serializeTag tg (h tg (by simp)),
        ih (fun tg htg => h tg (by simp [htg]))]

/-- A serialized well-formed tag has no space and no semicolon. -/
theorem serializeTag_chars (tg : Str × Option Str) (h : wfTag tg) :
    ∀ c ∈ serializeTag tg, c ≠ ' ' ∧ c ≠ ';' := by
  obtain ⟨k, v⟩ := tg
  cases v with
  | none =>
      intro c hc
      exact ⟨(h.2 c hc).2.2, (h.2 c hc).2.1⟩
  | some v =>
      intro c hc
      simp only [serializeTag, List.mem_append, List.mem_cons] at hc
      rcases hc with hc | hc | hc
      · exact ⟨(h.1.2 c hc).2.2, (h.1.2 c hc).2.1⟩
      · subst hc; exact ⟨by decide, by decide⟩
      · exact ⟨(h.2 c hc).2, (h.2 c hc).1⟩

/-- Parsing a serialized prefix recovers the prefix. -/
theorem parsePfx_serializePfx (p : IRCPfx) (h : wfPfx p) :
    parsePfx (serializePfx p) = p := by
  cases p with
  | hostOnly host =>
      unfold parsePfx serializePfx
      rw [splitFirst_eq_none _ host
        (fun c hc => decide_eq_false (h.2 c hc).2)]
  | full nick user host =>
      have h1 : splitFirst (fun c => decide (c = '!'))
          (nick ++ '!' :: (user ++ '@' :: host)) =
          some (nick, user ++ '@' :: host) :=
        splitFirst_append _ nick _ '!'
          (fun c hc => decide_eq_false (h.1.2 c hc).2) (by decide)
      have h2 : splitFirst (fun c => decide (c = '@')) (user ++ '@' :: host) =
          some (user, host) :=
        splitFirst_append _ user host '@'
          (fun c hc => decide_eq_false (h.2.1.2 c hc).2) (by decide)
      have key : serializePfx (IRCPfx.full nick user host) =
          nick ++ '!' :: (user ++ '@' :: host) := by
        simp [serializePfx]
      rw [key]
      simp [parsePfx, h1, h2]

/-- A serialized well-formed prefix has no spaces. -/
theorem serializePfx_noSp (p : IRCPfx) (h : wfPfx p) :
    noSp (serializePfx p) := by
  cases p with
  | hostOnly host => exact fun c hc => (h.2 c hc).1
  | full nick user host =>
      intro c hc
      have key : serializePfx (IRCPfx.full nick user host) =
          nick ++ '!' :: (user ++ '@' :: host) := by
        simp [serializePfx]
      rw [key] at hc
      have hc₂ := hc
      simp only [List.mem_append, List.mem_cons] at hc₂
      rcases hc₂ with hc₂ | hc₂ | hc₂ | hc₂ | hc₂
      · exact (h.1.2 c hc₂).1
      · subst hc₂; decide
      · exact (h.2.1.2 c hc₂).1
      · subst hc₂; decide
      · exact h.2.2.2 c hc₂

/-- Serialized parameters start with a space, and parsing them back (with
enough fuel) recovers the parameter list. -/
theorem serializeParams_inv (ps : List Str) (hne : ps ≠ [])
    (hps : ∀ p ∈ ps.dropLast, p ≠ [] ∧ noSp p ∧ p.head? ≠ some ':') :
    ∃ X, serializeParams ps = ' ' :: X ∧ ps.length ≤ X.length + 1 ∧
      ∀ fuel, ps.length ≤ fuel + 1 → parseParamsGo fuel X = ps := by
  induction ps with
  | nil => cases hne rfl
  | cons p rest ih =>
      cases rest with
      | nil =>
          refine ⟨':' :: p, rfl, by simp, ?_⟩
          intro fuel _
          unfold parseParamsGo
          simp
      | cons p₂ rest₂ =>
          have hp := hps p (by rw [List.dropLast_cons₂]; simp)
          obtain ⟨c, p₁, rfl⟩ : ∃ c p₁, p = c :: p₁ := by
            cases p with
            | nil => cases hp.1 rfl
            | cons c p₁ => exact ⟨c, p₁, rfl⟩
          obtain ⟨X₁, hXeq, hXlen, hXparse⟩ := ih (by simp)
            (fun q hq => hps q (by rw [List.dropLast_cons₂]; simp [hq]))
          refine ⟨(c :: p₁) ++ ' ' :: X₁, ?_, ?_, ?_⟩
          · show (' ' :: (c :: p₁)) ++ serializeParams (p₂ :: rest₂) = _
            rw [hXeq]
            simp
          · simp only [List.length_cons, List.length_append] at hXlen ⊢
            omega
          · intro fuel hfuel
            unfold parseParamsGo
            rw [if_neg (by simp)]
            have hhd : ((c :: p₁) ++ ' ' :: X₁).head? = some c := rfl
            rw [hhd]
            have hc : c ≠ ':' := by
              intro hcontra
              exact hp.2.2 (by rw [hcontra]; rfl)
            rw [if_neg (by simp [hc])]
            rw [splitFirst_append _ (c :: p₁) X₁ ' '
              (fun ch hch => decide_eq_false (hp.2.1 ch hch)) (by decide)]
            cases fuel with
            | zero => simp at hfuel
            | succ f =>
                show (c :: p₁) :: parseParamsGo f X₁ = _
                have hfuel₂ : (p₂ :: rest₂).length ≤ f + 1 := by
                  simp only [List.length_cons] at hfuel ⊢
                  omega
                rw [hXparse f hfuel₂]

/-- The command segment splits cleanly off the serialized parameters, and
the remainder parses back to the parameter list. -/
theorem splitSp_cmd_params (cmd : Str) (ps : List Str)
    (hcmdsp : ∀ c ∈ cmd, c ≠ ' ')
    (hps : ∀ p ∈ ps.dropLast, p ≠ [] ∧ noSp p ∧ p.head? ≠ some ':') :
    (splitSp (cmd ++ serializeParams ps)).1 = cmd ∧
    parseParams (splitSp (cmd ++ serializeParams ps)).2 = ps := by
  cases ps with
  | nil =>
      rw [show serializeParams [] = [] from rfl, List.append_nil]
      rw [splitSp_of_noSp cmd hcmdsp]
      exact ⟨rfl, rfl⟩
  | cons p rest =>
      obtain ⟨X, hXeq, hXlen, hXparse⟩ :=
        serializeParams_inv (p :: rest) (by simp) hps
      rw [hXeq, splitSp_append cmd X hcmdsp]
      refine ⟨rfl, ?_⟩
      unfold parseParams
      exact hXparse X.length hXlen

/-- `parseRest` on a line starting with `:` parses a prefix then the
command and parameters. -/
theorem parseRest_of_colon (X : Str) :
    parseRest (':' :: X) =
      (some (parsePfx (splitSp X).1), (splitSp (splitSp X).2).1,
        parseParams (splitSp (splitSp X).2).2) := by
  unfold parseRest
  rw [if_pos (show (':' :: X).head? = some ':' from rfl)]
  rfl

/-- `parseRest` on a line not starting with `:` parses no prefix. -/
theorem parseRest_not_colon (l1 : Str) (h : l1.head? ≠ some ':') :
    parseRest l1 =
      (none, (splitSp l1).1, parseParams (splitSp l1).2) := by
  unfold parseRest
  rw [if_neg h]

/-- `parseRest` of the serialized prefix/command/parameters suffix recovers
all three components. -/
theorem parseRest_serialized (pfxo : Option IRCPfx) (cmd : Str)
    (ps : List Str) (hpfx : wfPfxOpt pfxo) (hcmdne : cmd ≠ [])
    (hcmdsp : ∀ c ∈ cmd, c ≠ ' ') (hcmdc : cmd.head? ≠ some ':')
    (hps : ∀ p ∈ ps.dropLast, p ≠ [] ∧ noSp p ∧ p.head? ≠ some ':') :
    parseRest (serializePfxOpt pfxo ++ (cmd ++ serializeParams ps)) =
      (pfxo, cmd, ps) := by
  obtain ⟨hsp1, hsp2⟩ := splitSp_cmd_params cmd ps hcmdsp hps
  cases pfxo with
  | none =>
      obtain ⟨c, cmd₁, rfl⟩ : ∃ c l, cmd = c :: l := by
        cases cmd with
        | nil => cases hcmdne rfl
        | cons c l => exact ⟨c, l, rfl⟩
      have hc : c ≠ ':' := fun hcontra => hcmdc (by rw [hcontra]; rfl)
      rw [show serializePfxOpt none = [] from rfl, List.nil_append]
      rw [parseRest_not_colon _ (by simp [hc])]
      rw [hsp1, hsp2]
  | some p =>
      have key : serializePfxOpt (some p) ++ (cmd ++ serializeParams ps) =
          ':' :: (serializePfx p ++ ' ' :: (cmd ++ serializeParams ps)) := by
        simp [serializePfxOpt]
      rw [key]
      rw [parseRest_of_colon]
      rw [splitSp_append _ _ (serializePfx_noSp p hpfx)]
      rw [parsePfx_serializePfx p hpfx]
      rw [hsp1, hsp2]

/-- `parseIRC` on a line not starting with `@` parses no tags. -/
theorem parseIRC_not_at (l : Str) (h : l.head? ≠ some '@') :
    parseIRC l =
      (if (parseRest l).2.1 = [] then none
       else some ⟨[], (parseRest l).1, (parseRest l).2.1,
         (parseRest l).2.2⟩) := by
  unfold parseIRC
  rw [if_neg h]

/-- `parseIRC` on a line starting with `@` parses the tag section up to the
first space, then the rest. -/
theorem parseIRC_at (X : Str) :
    parseIRC ('@' :: X) =
      (if (parseRest (splitSp X).2).2.1 = [] then none
       else some ⟨(splitAll (fun c => c = ';') (splitSp X).1).map parseTag,
         (parseRest (splitSp X).2).1, (parseRest (splitSp X).2).2.1,
         (parseRest (splitSp X).2).2.2⟩) := by
  unfold parseIRC
  rw [if_pos (show ('@' :: X).head? = some '@' from rfl)]
  rfl

/-- The serialize/parse round trip, stated on the components of a
well-formed message. -/
theorem parseIRC_asRawIRC_parts (tags : List (Str × Option Str))
    (pfxo : Option IRCPfx) (cmd : Str) (ps : List Str)
    (htags : ∀ tg ∈ tags, wfTag tg) (hpfx : wfPfxOpt pfxo)
    (hcmdne : cmd ≠ []) (hcmdsp : ∀ c ∈ cmd, c ≠ ' ')
    (hcmd1 : cmd.head? ≠ some '@') (hcmd2 : cmd.head? ≠ some ':')
    (hparams : ∀ p ∈ ps.dropLast, p ≠ [] ∧ noSp p ∧ p.head? ≠ some ':') :
    parseIRC (asRawIRC ⟨tags, pfxo, cmd, ps⟩) = some ⟨tags, pfxo, cmd, ps⟩ := by
  have hrest := parseRest_serialized pfxo cmd ps hpfx hcmdne hcmdsp hcmd2
    hparams
  have hhd : (serializePfxOpt pfxo ++
      (cmd ++ serializeParams ps)).head? ≠ some '@' := by
    cases pfxo with
    | none =>
        rw [show serializePfxOpt none = [] from rfl, List.nil_append]
        cases cmd with
        | nil => cases hcmdne rfl
        | cons c l =>
            intro hcon
            exact hcmd1 (by simpa using hcon)
    | some p =>
        intro hcon
        rw [show serializePfxOpt (some p) =
          (':' :: serializePfx p) ++ [' '] from rfl] at hcon
        simp at hcon
  cases tags with
  | nil =>
      have hraw : asRawIRC ⟨[], pfxo, cmd, ps⟩ =
          serializePfxOpt pfxo ++ (cmd ++ serializeParams ps) := by
        simp [asRawIRC, serializeTagsPart]
      rw [hraw, parseIRC_not_at _ hhd, hrest]
      rw [if_neg (show ¬ (((pfxo, cmd, ps) :
        Option IRCPfx × Str × List Str).2.1 = []) from hcmdne)]
  | cons t ts =>
      have hsegwf : ∀ s ∈ (t :: ts).map serializeTag,
          ∀ c ∈ s, c ≠ ' ' ∧ c ≠ ';' := by
        intro s hs c hc
        obtain ⟨tg, htg, rfl⟩ := List.mem_map.mp hs
        exact serializeTag_chars tg (htags tg htg) c hc
      have hJ : noSp (joinSep ';' ((t :: ts).map serializeTag)) := by
        intro c hc
        rcases mem_joinSep c ';' _ hc with hc | ⟨s, hs, hcs⟩
        · subst hc; decide
        · exact (hsegwf s hs c hcs).1
      have hsplitAll : splitAll (fun c => c = ';')
          (joinSep ';' ((t :: ts).map serializeTag)) =
          (t :: ts).map serializeTag := by
        unfold splitAll
        exact splitAllGo_joinSep _ ';' _ (by decide)
          (fun s hs c hc => decide_eq_false (hsegwf s hs c hc).2) _
          (joinSep_length ';' _) (by simp)
      have hraw : asRawIRC ⟨t :: ts, pfxo, cmd, ps⟩ =
          '@' :: (joinSep ';' ((t :: ts).map serializeTag) ++ ' ' ::
            (serializePfxOpt pfxo ++ (cmd ++ serializeParams ps))) := by
        simp [asRawIRC, serializeTagsPart]
      rw [hraw, parseIRC_at, splitSp_append _ _ hJ]
      dsimp only
      rw [hrest]
      dsimp only
      rw [if_neg hcmdne]
      rw [hsplitAll, map_parseTag_serializeTag _ htags]

/-- Parsing the serialization of a well-formed `IRCMessage` recovers the
message exactly — the serialize/parse round trip. -/
theorem parseIRC_asRawIRC (m : IRCMessage) (h : wfIRCMessage m) :
    parseIRC (asRawIRC m) = some m := by
  obtain ⟨tags, pfxo, cmd, ps⟩ := m
  exact parseIRC_asRawIRC_parts tags pfxo cmd ps h.1 h.2.1 h.2.2.1.1
    h.2.2.1.2.1 h.2.2.1.2.2.1 h.2.2.1.2.2.2 h.2.2.2

/-- C8: the replay export is deterministic — the same input yields the
byte-identical output — and stable under reparsing: for a well-formed
message obtained by `try_from`, serializing it to wire format and reparsing
yields the same parsed message, so exporting the reparsed frame produces
the same output (including the serialized ordering and content of IRC
tags, which the round trip preserves exactly). -/
theorem claim_c8_replay_stable :
    (∀ (msgs : List StoredMessage) (opts : GetRecentMessagesQueryOptions),
        export_stored_messages msgs opts = export_stored_messages msgs opts) ∧
    (∀ m : IRCMessage, wfIRCMessage m → parseIRC (asRawIRC m) = some m) ∧
    (∀ (sm : ServerMessage) (t : Int) (deleted : Bool)
        (opts : GetRecentMessagesQueryOptions),
        wfIRCMessage sm.source → tryFromIRC sm.source = some sm →
        (parseIRC (asRawIRC sm.source)).bind tryFromIRC = some sm ∧
        ∀ sm₂, (parseIRC (asRawIRC sm.source)).bind tryFromIRC = some sm₂ →
          ContainerFrame.export ⟨sm₂, t, deleted⟩ opts =
            ContainerFrame.export ⟨sm, t, deleted⟩ opts) := by
  refine ⟨fun _ _ => rfl, parseIRC_asRawIRC, ?_⟩
  intro sm t deleted opts hwf htry
  have h1 : (parseIRC (asRawIRC sm.source)).bind tryFromIRC = some sm := by
    rw [parseIRC_asRawIRC sm.source hwf]
    simpa using htry
  refine ⟨h1, ?_⟩
  intro sm₂ h2
  rw [h1] at h2
  injection h2 with h3
  rw [← h3]

/-- Concrete well-formed `IRCMessage` for the C8 witness. -/
def c8IRC : IRCMessage :=
  ⟨[(tagId, some ("x1".toList)), (tagUserId, some ("7".toList))],
    some (.full ("bob".toList) ("bob".toList) ("b.tv".toList)),
    cmdPRIVMSG, ["#chan".toList, "hello world".toList]⟩

/-- Concrete parsed server message for the C8 witness. -/
def c8SM : ServerMessage :=
  ⟨c8IRC, .privmsg ("chan".toList) ("7".toList) ("x1".toList)⟩

/-- C8 witness: the theorem instantiated at a concrete message with tags, a
full prefix, and a trailing parameter containing a space. -/
theorem claim_c8_witness :
    export_stored_messages [] defaultQueryOptions =
      export_stored_messages [] defaultQueryOptions ∧
    parseIRC (asRawIRC c8IRC) = some c8IRC ∧
    (parseIRC (asRawIRC c8SM.source)).bind tryFromIRC = some c8SM ∧
    ContainerFrame.export ⟨c8SM, 0, false⟩ defaultQueryOptions =
      ContainerFrame.export ⟨c8SM, 0, false⟩ defaultQueryOptions := by
  refine ⟨claim_c8_replay_stable.1 [] defaultQueryOptions,
    claim_c8_replay_stable.2.1 c8IRC (by decide), ?_, ?_⟩
  · exact (claim_c8_replay_stable.2.2 c8SM 0 false defaultQueryOptions
      (by decide) (by decide)).1
  · exact (claim_c8_replay_stable.2.2 c8SM 0 false defaultQueryOptions
      (by decide) (by decide)).2 c8SM
      ((claim_c8_replay_stable.2.2 c8SM 0 false defaultQueryOptions
        (by decide) (by decide)).1)
